import Mathlib

/-!
Verification development for the yield-curve analyzer
(`src/yield_curve_analyzer.py`).

The script is a pandas pipeline held together by the mutable field
`self.data` (a DataFrame).  We embed that DataFrame shallowly: the
timestamp index is a list of integers (calendar dates), a cell is
`Option ℚ` (`none` models a NaN / missing cell, float values are
modelled as exact rationals), and a column is a named list of cells,
one per index entry.  Methods that mutate `self.data` become functions
`DataFrame → DataFrame` (explicit state passing); code that raises a
Python exception returns `Except PyError`.
-/

namespace YieldCurve

/-- Timestamps (calendar dates) are modelled as integers. -/
abbrev Ts := Int

/-- A DataFrame cell: `none` models NaN / a missing value. -/
abbrev Cell := Option ℚ

/-- Shallow embedding of the pandas DataFrame stored in `self.data`:
a timestamp index plus named columns, one cell per index entry. -/
structure DataFrame where
  index : List Ts
  cols : List (String × List Cell)
deriving DecidableEq

/-- Well-formedness: every column has exactly one cell per index entry. -/
def DataFrame.WF (df : DataFrame) : Prop :=
  ∀ c ∈ df.cols, c.2.length = df.index.length

instance (df : DataFrame) : Decidable df.WF := by
  unfold DataFrame.WF; infer_instance

/-- `name in self.data.columns`. -/
def hasCol (df : DataFrame) (name : String) : Bool :=
  df.cols.any (fun c => c.1 == name)

/-- `self.data[name]` (the empty column if the name is absent). -/
def getCol (df : DataFrame) (name : String) : List Cell :=
  match df.cols.find? (fun c => c.1 == name) with
  | some c => c.2
  | none => []

/-- `self.data[name] = vals`: pandas column assignment replaces an existing
column in place and appends a new column at the end otherwise. -/
def setCol (df : DataFrame) (name : String) (vals : List Cell) : DataFrame :=
  if hasCol df name then
    { df with cols := df.cols.map (fun c => if c.1 == name then (name, vals) else c) }
  else
    { df with cols := df.cols ++ [(name, vals)] }

/-! ## Forward / backward fill and row dropping (lines 141-149) -/

/-- One pass of forward fill down a column, carrying the last known value. -/
def ffillFrom (carry : Cell) : List Cell → List Cell
  | [] => []
  | none :: rest => carry :: ffillFrom carry rest
  | some x :: rest => some x :: ffillFrom (some x) rest

/-- `fillna(method='ffill')` on one column. -/
def ffillCol (l : List Cell) : List Cell := ffillFrom none l

/-- `fillna(method='bfill')` on one column: forward fill of the reverse. -/
def bfillCol (l : List Cell) : List Cell := (ffillFrom none l.reverse).reverse

/-- The cell of a column at row position `i` (NaN when out of range). -/
def cellAt (col : List Cell) (i : ℕ) : Cell := (col.get? i).getD none

/-- Row `i` holds NaN in every column. -/
def rowAllNaN (cols : List (String × List Cell)) (i : ℕ) : Bool :=
  cols.all (fun c => (cellAt c.2 i).isNone)

/-- `self.data.dropna(how='all')` (line 143): drop the rows whose every
cell is NaN. -/
def dropAllNaN (df : DataFrame) : DataFrame :=
  let keep := (List.range df.index.length).filter (fun i => !(rowAllNaN df.cols i))
  { index := keep.filterMap (fun i => df.index.get? i),
    cols := df.cols.map (fun c => (c.1, keep.filterMap (fun i => c.2.get? i))) }

/-- Lines 141-149: `dropna(how='all')` followed by
`fillna(method='ffill').fillna(method='bfill')`, per column. -/
def cleanTable (df : DataFrame) : DataFrame :=
  let d := dropAllNaN df
  { d with cols := d.cols.map (fun c => (c.1, bfillCol (ffillCol c.2))) }

/-! ## The 2Y estimate (lines 153-172) -/

/-- The interpolation weight `0.7` of line 163. -/
def estWeight : ℚ := 7 / 10

/-- The empirical offset `0.5` of line 171. -/
def estOffset : ℚ := 1 / 2

/-- Cell-wise subtraction; NaN propagates, as in pandas. -/
def cellSub (a b : Cell) : Cell :=
  match a, b with
  | some x, some y => some (x - y)
  | _, _ => none

/-- Cell-wise `three_month + 0.7 * (five_year - three_month)` (line 163);
NaN propagates, as in pandas. -/
def cellInterp (p f : Cell) : Cell :=
  match p, f with
  | some x, some y => some (x + estWeight * (y - x))
  | _, _ => none

/-- Lines 153-172: build the `2Y_estimated` column.  The interpolation rule
fires only when the `2Y` proxy, `5Y` and `10Y` columns are all present;
with the proxy but not both of `5Y` and `10Y` the proxy is copied; with
only `5Y` the estimate is `5Y - 0.5`; otherwise the table is returned
unchanged (the code raises nothing in that case). -/
def estimate2Y (df : DataFrame) : DataFrame :=
  if hasCol df "2Y" then
    if hasCol df "5Y" && hasCol df "10Y" then
      setCol df "2Y_estimated" (List.zipWith cellInterp (getCol df "2Y") (getCol df "5Y"))
    else
      setCol df "2Y_estimated" (getCol df "2Y")
  else if hasCol df "5Y" then
    setCol df "2Y_estimated" ((getCol df "5Y").map (fun c => c.map (fun x => x - estOffset)))
  else df

/-! ## Spread calculation (lines 283-303) -/

/-- `calculate_spreads` (lines 291-301): write the `2s10s_spread` and
`5s30s_spread` columns into `self.data` when their operand columns are
present.  The returned table is the new state of `self.data`. -/
def calculate_spreads (df : DataFrame) : DataFrame :=
  let df1 :=
    if hasCol df "10Y" && hasCol df "2Y_estimated" then
      setCol df "2s10s_spread" (List.zipWith cellSub (getCol df "10Y") (getCol df "2Y_estimated"))
    else df
  if hasCol df1 "30Y" && hasCol df1 "5Y" then
    setCol df1 "5s30s_spread" (List.zipWith cellSub (getCol df1 "30Y") (getCol df1 "5Y"))
  else df1

/-! ## The fetch / fallback control flow (lines 85-202) -/

/-- Outcome of `fetch_treasury_data` after the per-ticker downloads.  The
spec names an `InsufficientSeriesError`; the code has no such outcome, the
constructor is included only so that the claimed behaviour is statable.
`sampleData` is the `create_sample_data()` fallback (line 202); its
numeric content is driven by `np.random` and is irrelevant to the claims,
only the taken path matters. -/
inductive FetchResult
  | realData : DataFrame → FetchResult
  | sampleData : FetchResult
  | insufficientSeriesError : FetchResult
deriving DecidableEq

/-- Insert a timestamp into a sorted list without duplicates. -/
def insertTs (x : Ts) : List Ts → List Ts
  | [] => [x]
  | y :: ys => if x < y then x :: y :: ys else if x = y then y :: ys else y :: insertTs x ys

/-- The sorted union of all observation timestamps (lines 117-120). -/
def unionIndex (series : List (String × List (Ts × ℚ))) : List Ts :=
  ((series.map (fun s => s.2.map Prod.fst)).flatten).foldl (fun acc t => insertTs t acc) []

/-- Place one series into a column of the union index: cells without a
matching observation start as NaN. -/
def colFromSeries (idx : List Ts) (obs : List (Ts × ℚ)) : List Cell :=
  idx.map (fun t => (obs.find? (fun p => p.1 == t)).map Prod.snd)

/-- Lines 104-129: assemble the DataFrame from the fetched series on the
union of their timestamps. -/
def buildTable (series : List (String × List (Ts × ℚ))) : DataFrame :=
  let idx := unionIndex series
  { index := idx, cols := series.map (fun s => (s.1, colFromSeries idx s.2)) }

/-- Lines 85-202 of `fetch_treasury_data`, after the downloads: with at
least two usable (nonempty) series the data is aligned, cleaned and the
2Y estimate added; otherwise the code falls back to
`create_sample_data()` — it never raises a typed error. -/
def processFetched (fetched : List (String × List (Ts × ℚ))) : FetchResult :=
  let usable := fetched.filter (fun s => !s.2.isEmpty)
  if 2 ≤ usable.length then
    .realData (estimate2Y (cleanTable (buildTable usable)))
  else
    .sampleData

/-! ## Inversion detection (lines 367-418) -/

/-- The scan loop of `analyze_inversions` (lines 379-391): walk the spread
series in order keeping the pending inversion start (`none` = not
currently inverted) and the list of emitted closed intervals. -/
def invLoop : List (Ts × ℚ) → Option Ts → List (Ts × Ts) → List (Ts × Ts) × Option Ts
  | [], st, acc => (acc, st)
  | (d, v) :: rest, none, acc =>
    if v < 0 then invLoop rest (some d) acc else invLoop rest none acc
  | (d, v) :: rest, some s, acc =>
    if v < 0 then invLoop rest (some s) acc else invLoop rest none (acc ++ [(s, d)])

/-- `analyze_inversions` (lines 376-394): the emitted inversion periods.
A run still open after the last observation is closed off at the last
timestamp of the index (line 394); the emitted pair carries no
still-active marker. -/
def analyze_inversions (s : List (Ts × ℚ)) : List (Ts × Ts) :=
  match invLoop s none [], s.getLast? with
  | (acc, some st), some lp => acc ++ [(st, lp.1)]
  | (acc, _), _ => acc

/-- Whether the final observation of the spread series is inverted
(`< 0`), i.e. whether a final interval is still open. -/
def stillInverted (s : List (Ts × ℚ)) : Bool :=
  match s.getLast? with
  | some p => decide (p.2 < 0)
  | none => false

/-! ## Summary statistics (lines 412-418 and 444-458) -/

/-- Python exceptions relevant to the claims.  The spec names an
`EmptySeriesError`; the code never raises one, the constructor is
included only so that the claimed behaviour is statable. -/
inductive PyError
  | indexError
  | emptySeriesError
deriving DecidableEq

/-- `series.max()` over the plain values. -/
def listMax : List ℚ → ℚ
  | [] => 0
  | x :: xs => xs.foldl max x

/-- `series.min()` over the plain values. -/
def listMin : List ℚ → ℚ
  | [] => 0
  | x :: xs => xs.foldl min x

/-- `series.mean()`. -/
def seriesMean (xs : List ℚ) : ℚ := xs.sum / xs.length

/-- The sum of squared deviations from the mean. -/
def sumSqDev (xs : List ℚ) : ℚ := (xs.map (fun x => (x - seriesMean xs) ^ 2)).sum

/-- The square of `series.std()` with the pandas default `ddof=1`: the
sum of squared deviations divided by `N - 1`.  We work with the square
of the reported value: the report applies a square root, which is
injective on nonnegative arguments, so equality / inequality of the
squares settles equality of the reported values.  With fewer than two
observations pandas returns NaN (`none`). -/
def sampleVariance (xs : List ℚ) : Option ℚ :=
  if 2 ≤ xs.length then some (sumSqDev xs / ((xs.length : ℚ) - 1)) else none

/-- Modelled from the spec's words, for comparison with `sampleVariance`:
the population variance, the sum of squared deviations divided by `N`
("divide by N, not N-1"). -/
def popVarianceSpec (xs : List ℚ) : ℚ := sumSqDev xs / (xs.length : ℚ)

/-- The statistics printed by the spread-analysis block of
`generate_summary_report` (lines 446-458). -/
structure SpreadStats where
  current : ℚ
  maxSpread : ℚ
  minSpread : ℚ
  avgSpread : ℚ
  stdSq : Option ℚ
deriving DecidableEq

/-- Lines 444-458 of `generate_summary_report`, the SummaryStatistics
component, over the spread values: `current` is `.iloc[-1]`, which on an
empty series raises the built-in `IndexError`; otherwise max, min, mean
and std (ddof=1, squared — see `sampleVariance`) are computed. -/
def spreadReport (xs : List ℚ) : Except PyError SpreadStats :=
  match xs.getLast? with
  | none => .error .indexError
  | some c => .ok ⟨c, listMax xs, listMin xs, seriesMean xs, sampleVariance xs⟩

/-- Lines 412-418 of `analyze_inversions`, the `currentStatus` facility:
`.iloc[-1]` on the spread series (IndexError when empty), and whether
that last value is inverted. -/
def currentStatus (spread : List (Ts × ℚ)) : Except PyError (ℚ × Bool) :=
  match spread.getLast? with
  | none => .error .indexError
  | some p => .ok (p.2, decide (p.2 < 0))

/-! ## Concrete tables used to instantiate the theorems -/

/-- A table holding the proxy, 5Y and 10Y columns. -/
def tblProxy5Y10Y : DataFrame := ⟨[1], [("2Y", [some 3]), ("5Y", [some 4]), ("10Y", [some 5])]⟩

/-- A table holding the proxy and 5Y columns but no 10Y column. -/
def tblProxy5Y : DataFrame := ⟨[1], [("2Y", [some 3]), ("5Y", [some 4])]⟩

/-- A table with neither the proxy nor the 5Y column. -/
def tblLongOnly : DataFrame := ⟨[1], [("10Y", [some 4]), ("30Y", [some 5])]⟩

/-- A table with the two columns of the 2s10s spread. -/
def tblTenTwo : DataFrame := ⟨[0], [("10Y", [some 4]), ("2Y_estimated", [some 3])]⟩

/-- A table with all four spread operand columns and one NaN cell. -/
def tblFour : DataFrame :=
  ⟨[1, 2], [("10Y", [some 5, none]), ("2Y_estimated", [some 3, some 3]),
            ("30Y", [some 6, some 6]), ("5Y", [some 4, some 4])]⟩

/-- A gappy two-column table: the middle row is NaN in every column. -/
def tblFill : DataFrame := ⟨[1, 2, 3], [("A", [some 1, none, none]), ("B", [none, none, some 2])]⟩

/-! ## List-level helper lemmas -/

theorem get?_zipWith {α β γ : Type} (f : α → β → γ) :
    ∀ (l₁ : List α) (l₂ : List β) (i : ℕ),
      (List.zipWith f l₁ l₂).get? i =
        match l₁.get? i, l₂.get? i with
        | some a, some b => some (f a b)
        | _, _ => none := by
  intro l₁
  induction l₁ with
  | nil => intro l₂ i; cases l₂ <;> cases i <;> rfl
  | cons a t ih =>
    intro l₂ i
    cases l₂ with
    | nil =>
      cases i with
      | zero => rfl
      | succ n =>
        rcases h : (a :: t).get? (n + 1) with _ | x <;>
          simp [List.zipWith_nil_right, h]
    | cons b t₂ =>
      cases i with
      | zero => rfl
      | succ n => simpa using ih t₂ n

theorem length_filterMap_get? {α : Type} (l : List α) (keep : List ℕ)
    (h : ∀ j ∈ keep, j < l.length) :
    (keep.filterMap (fun j => l.get? j)).length = keep.length := by
  rw [List.filterMap_length_eq_length]
  intro j hj
  rw [List.get?_eq_getElem?, List.getElem?_eq_getElem (h j hj)]
  rfl

/-! ## Column-update lemmas for `setCol` -/

theorem replace_comp_self (n : String) (v : List Cell) :
    ((fun c : String × List Cell => c.1 == n) ∘ (fun c => if c.1 == n then (n, v) else c)) =
      fun c : String × List Cell => c.1 == n := by
  funext c
  by_cases hc : c.1 = n <;> simp [Function.comp, hc]

theorem replace_comp_ne (n m : String) (v : List Cell) (hnm : m ≠ n) :
    ((fun c : String × List Cell => c.1 == m) ∘ (fun c => if c.1 == n then (n, v) else c)) =
      fun c : String × List Cell => c.1 == m := by
  funext c
  by_cases hc : c.1 = n
  · have hnm' : ¬ (n = m) := fun hx => hnm hx.symm
    simp [Function.comp, hc, hnm']
  · simp [Function.comp, hc]

theorem find?_map_replace (n : String) (v : List Cell)
    (cs : List (String × List Cell)) (h : cs.any (fun c => c.1 == n) = true) :
    (cs.map (fun c => if c.1 == n then (n, v) else c)).find? (fun c => c.1 == n) = some (n, v) := by
  rw [List.find?_map, replace_comp_self n v]
  obtain ⟨c0, hmem, hc0⟩ := List.any_eq_true.mp h
  have hsome : (cs.find? (fun c : String × List Cell => c.1 == n)).isSome := by
    rw [List.find?_isSome]
    exact ⟨c0, hmem, hc0⟩
  obtain ⟨a, ha⟩ := Option.isSome_iff_exists.mp hsome
  rw [ha]
  have hpa := List.find?_some ha
  have han : a.1 = n := by simpa using hpa
  simp [Option.map_some, han]

theorem find?_append_single (n : String) (v : List Cell)
    (cs : List (String × List Cell)) (h : cs.any (fun c => c.1 == n) = false) :
    (cs ++ [(n, v)]).find? (fun c => c.1 == n) = some (n, v) := by
  rw [List.find?_append]
  have hnone : cs.find? (fun c => c.1 == n) = none :=
    List.find?_eq_none.mpr (fun x hx => by
      have := List.any_eq_false.mp h x hx
      simpa using this)
  rw [hnone]
  simp [List.find?_cons_of_pos]

theorem setCol_cols_pos (df : DataFrame) (n : String) (v : List Cell) (h : hasCol df n = true) :
    (setCol df n v).cols = df.cols.map (fun c => if c.1 == n then (n, v) else c) := by
  unfold setCol
  rw [if_pos h]

theorem setCol_cols_neg (df : DataFrame) (n : String) (v : List Cell)
    (h : ¬ (hasCol df n = true)) :
    (setCol df n v).cols = df.cols ++ [(n, v)] := by
  unfold setCol
  rw [if_neg h]

theorem getCol_setCol_self (df : DataFrame) (n : String) (v : List Cell) :
    getCol (setCol df n v) n = v := by
  by_cases h : hasCol df n
  · unfold getCol
    rw [setCol_cols_pos df n v h, find?_map_replace n v df.cols h]
  · unfold getCol
    have h' : df.cols.any (fun c => c.1 == n) = false := by
      unfold hasCol at h
      cases hb : df.cols.any (fun c => c.1 == n) with
      | false => rfl
      | true => exact absurd hb h
    rw [setCol_cols_neg df n v h, find?_append_single n v df.cols h']

theorem find?_map_replace_ne (n m : String) (v : List Cell) (hnm : m ≠ n)
    (cs : List (String × List Cell)) :
    (cs.map (fun c => if c.1 == n then (n, v) else c)).find? (fun c => c.1 == m) =
      cs.find? (fun c => c.1 == m) := by
  rw [List.find?_map, replace_comp_ne n m v hnm]
  cases ha : cs.find? (fun c => c.1 == m) with
  | none => simp
  | some a =>
    have hpa := List.find?_some ha
    have ham : a.1 = m := by simpa using hpa
    have han : ¬ ((a.1 == n) = true) := by simpa [ham] using hnm
    show some (if a.1 == n then (n, v) else a) = some a
    rw [if_neg han]

theorem find?_append_single_ne (n m : String) (v : List Cell) (hnm : m ≠ n)
    (cs : List (String × List Cell)) :
    (cs ++ [(n, v)]).find? (fun c => c.1 == m) = cs.find? (fun c => c.1 == m) := by
  rw [List.find?_append]
  have hnm' : ¬ (n = m) := fun h => hnm h.symm
  have h2 : List.find? (fun c : String × List Cell => c.1 == m) [(n, v)] = none := by
    simp [hnm']
  rw [h2]
  cases cs.find? (fun c : String × List Cell => c.1 == m) <;> rfl

theorem getCol_setCol_ne (df : DataFrame) (n m : String) (v : List Cell) (hnm : m ≠ n) :
    getCol (setCol df n v) m = getCol df m := by
  by_cases h : hasCol df n
  · unfold getCol
    rw [setCol_cols_pos df n v h, find?_map_replace_ne n m v hnm df.cols]
  · unfold getCol
    rw [setCol_cols_neg df n v h, find?_append_single_ne n m v hnm df.cols]

theorem any_map_replace_ne (n m : String) (v : List Cell) (hnm : m ≠ n)
    (cs : List (String × List Cell)) :
    (cs.map (fun c => if c.1 == n then (n, v) else c)).any (fun c => c.1 == m) =
      cs.any (fun c => c.1 == m) := by
  rw [List.any_map, replace_comp_ne n m v hnm]

theorem hasCol_setCol_ne (df : DataFrame) (n m : String) (v : List Cell) (hnm : m ≠ n) :
    hasCol (setCol df n v) m = hasCol df m := by
  by_cases h : hasCol df n
  · unfold hasCol
    rw [setCol_cols_pos df n v h, any_map_replace_ne n m v hnm df.cols]
  · unfold hasCol
    have h' : ¬ (hasCol df n = true) := h
    rw [setCol_cols_neg df n v h']
    have hnm' : ¬ (n = m) := fun hx => hnm hx.symm
    simp [List.any_append, hnm']

theorem index_setCol (df : DataFrame) (n : String) (v : List Cell) :
    (setCol df n v).index = df.index := by
  unfold setCol
  split <;> rfl

/-! ## Fill lemmas -/

theorem ffillFrom_length (carry : Cell) (l : List Cell) :
    (ffillFrom carry l).length = l.length := by
  induction l generalizing carry with
  | nil => rfl
  | cons a rest ih => cases a <;> simp [ffillFrom, ih]

theorem bfillCol_length (l : List Cell) : (bfillCol l).length = l.length := by
  unfold bfillCol
  rw [List.length_reverse, ffillFrom_length, List.length_reverse]

theorem ffillFrom_ne_nil (carry : Cell) (l : List Cell) (h : l ≠ []) :
    ffillFrom carry l ≠ [] := by
  cases l with
  | nil => exact absurd rfl h
  | cons a rest => cases a <;> simp [ffillFrom]

theorem getLast?_cons_ne {α : Type} (a : α) (l : List α) (h : l ≠ []) :
    (a :: l).getLast? = l.getLast? := by
  cases l with
  | nil => exact absurd rfl h
  | cons b t => exact List.getLast?_cons_cons

theorem ffillFrom_some_all (v : ℚ) (l : List Cell) :
    ∀ x ∈ ffillFrom (some v) l, x.isSome = true := by
  induction l generalizing v with
  | nil => simp [ffillFrom]
  | cons a rest ih =>
    cases a with
    | none =>
      intro x hx
      rcases List.mem_cons.mp hx with h1 | h2
      · subst h1; rfl
      · exact ih v x h2
    | some y =>
      intro x hx
      rcases List.mem_cons.mp hx with h1 | h2
      · subst h1; rfl
      · exact ih y x h2

theorem ffillFrom_getLast_some (l : List Cell) :
    ∀ carry : Cell, l ≠ [] → (carry.isSome = true ∨ ∃ x ∈ l, x.isSome = true) →
      ∃ v : ℚ, (ffillFrom carry l).getLast? = some (some v) := by
  induction l with
  | nil => intro carry h _; exact absurd rfl h
  | cons a rest ih =>
    intro carry _ hyp
    cases hrest : rest with
    | nil =>
      subst hrest
      cases a with
      | none =>
        have hc : carry.isSome = true := by
          rcases hyp with h | ⟨x, hx, hxs⟩
          · exact h
          · rcases List.mem_singleton.mp hx with rfl
            simp at hxs
        obtain ⟨v, hv⟩ := Option.isSome_iff_exists.mp hc
        exact ⟨v, by subst hv; rfl⟩
      | some y => exact ⟨y, rfl⟩
    | cons b rs =>
      subst hrest
      have hne : (b :: rs : List Cell) ≠ [] := by simp
      cases a with
      | none =>
        have hyp' : carry.isSome = true ∨ ∃ x ∈ b :: rs, x.isSome = true := by
          rcases hyp with h | ⟨x, hx, hxs⟩
          · exact Or.inl h
          · rcases List.mem_cons.mp hx with rfl | h2
            · simp at hxs
            · exact Or.inr ⟨x, h2, hxs⟩
        obtain ⟨v, hv⟩ := ih carry hne hyp'
        refine ⟨v, ?_⟩
        show (carry :: ffillFrom carry (b :: rs)).getLast? = some (some v)
        rw [getLast?_cons_ne _ _ (ffillFrom_ne_nil carry _ hne)]
        exact hv
      | some y =>
        obtain ⟨v, hv⟩ := ih (some y) hne (Or.inl rfl)
        refine ⟨v, ?_⟩
        show (some y :: ffillFrom (some y) (b :: rs)).getLast? = some (some v)
        rw [getLast?_cons_ne _ _ (ffillFrom_ne_nil (some y) _ hne)]
        exact hv

theorem ffillFrom_all_none (l : List Cell) (h : ∀ x ∈ l, x = none) :
    ffillFrom none l = l := by
  induction l with
  | nil => rfl
  | cons a rest ih =>
    have ha : a = none := h a (by simp)
    subst ha
    show none :: ffillFrom none rest = none :: rest
    rw [ih (fun x hx => h x (by simp [hx]))]

theorem fill_total (l : List Cell) (hs : ∃ x ∈ l, x.isSome = true) :
    ∀ x ∈ bfillCol (ffillCol l), x.isSome = true := by
  have hne : l ≠ [] := by rintro rfl; simp at hs
  obtain ⟨v, hv⟩ := ffillFrom_getLast_some l none hne (Or.inr hs)
  have hrev : (ffillCol l).reverse.head? = some (some v) := by
    rw [List.head?_reverse]; exact hv
  obtain ⟨t, ht⟩ : ∃ t, (ffillCol l).reverse = some v :: t := by
    cases hr : (ffillCol l).reverse with
    | nil => rw [hr] at hrev; simp at hrev
    | cons b tl =>
      rw [hr] at hrev
      simp at hrev
      exact ⟨tl, by rw [hrev]⟩
  intro x hx
  unfold bfillCol at hx
  rw [ht] at hx
  have hred : ffillFrom none (some v :: t) = some v :: ffillFrom (some v) t := rfl
  rw [hred, List.mem_reverse] at hx
  rcases List.mem_cons.mp hx with h1 | h2
  · subst h1; rfl
  · exact ffillFrom_some_all v t x h2

theorem fill_all_none (l : List Cell) (h : ∀ x ∈ l, x = none) :
    bfillCol (ffillCol l) = l := by
  unfold bfillCol ffillCol
  rw [ffillFrom_all_none l h]
  rw [ffillFrom_all_none l.reverse (fun x hx => h x (List.mem_reverse.mp hx))]
  exact List.reverse_reverse l

/-! ## Inversion-loop lemmas -/

theorem invLoop_of_nonneg (l : List (Ts × ℚ)) :
    ∀ acc, (∀ p ∈ l, 0 ≤ p.2) → invLoop l none acc = (acc, none) := by
  induction l with
  | nil => intro acc _; rfl
  | cons hd tl ih =>
    intro acc h
    obtain ⟨d, v⟩ := hd
    have hv : ¬ (v < 0) := not_lt.mpr (h (d, v) (by simp))
    show (if v < 0 then invLoop tl (some d) acc else invLoop tl none acc) = (acc, none)
    rw [if_neg hv]
    exact ih acc (fun p hp => h p (by simp [hp]))

theorem invLoop_of_allneg (l : List (Ts × ℚ)) :
    ∀ s acc, (∀ p ∈ l, p.2 < 0) → invLoop l (some s) acc = (acc, some s) := by
  induction l with
  | nil => intro s acc _; rfl
  | cons hd tl ih =>
    intro s acc h
    obtain ⟨d, v⟩ := hd
    have hv : v < 0 := h (d, v) (by simp)
    show (if v < 0 then invLoop tl (some s) acc else invLoop tl none (acc ++ [(s, d)]))
      = (acc, some s)
    rw [if_pos hv]
    exact ih s acc (fun p hp => h p (by simp [hp]))

theorem invLoop_state_isSome (l : List (Ts × ℚ)) :
    ∀ (st : Option Ts) (acc : List (Ts × Ts)) (lp : Ts × ℚ),
      l.getLast? = some lp → (invLoop l st acc).2.isSome = decide (lp.2 < 0) := by
  induction l with
  | nil => intro st acc lp h; simp at h
  | cons hd tl ih =>
    intro st acc lp h
    obtain ⟨d, v⟩ := hd
    cases htl : tl with
    | nil =>
      subst htl
      have hlp : lp = (d, v) := by
        have := h
        rw [List.getLast?_singleton] at this
        exact (Option.some.inj this).symm
      subst hlp
      cases st with
      | none =>
        by_cases hv : v < 0 <;>
          simp [invLoop, hv]
      | some s =>
        by_cases hv : v < 0 <;>
          simp [invLoop, hv]
    | cons b rs =>
      subst htl
      have h' : (b :: rs).getLast? = some lp := by
        rw [← List.getLast?_cons_cons (a := (d, v))]
        exact h
      cases st with
      | none =>
        have hunf : invLoop ((d, v) :: b :: rs) none acc
            = if v < 0 then invLoop (b :: rs) (some d) acc
              else invLoop (b :: rs) none acc := rfl
        rw [hunf]
        by_cases hv : v < 0
        · rw [if_pos hv]; exact ih (some d) acc lp h'
        · rw [if_neg hv]; exact ih none acc lp h'
      | some s =>
        have hunf : invLoop ((d, v) :: b :: rs) (some s) acc
            = if v < 0 then invLoop (b :: rs) (some s) acc
              else invLoop (b :: rs) none (acc ++ [(s, d)]) := rfl
        rw [hunf]
        by_cases hv : v < 0
        · rw [if_pos hv]; exact ih (some s) acc lp h'
        · rw [if_neg hv]; exact ih none (acc ++ [(s, d)]) lp h'

theorem invariant_last_transfer (d : Ts) (v : ℚ) (tl : List (Ts × ℚ)) (b s0 : Ts)
    (hm : match tl.getLast? with | some lp => s0 ≤ lp.1 | none => s0 ≤ d) :
    match ((d, v) :: tl).getLast? with | some lp => s0 ≤ lp.1 | none => s0 ≤ b := by
  cases htl : tl with
  | nil =>
    subst htl
    simpa using hm
  | cons x xs =>
    subst htl
    rw [List.getLast?_cons_cons]
    exact hm

theorem invLoop_invariant (l : List (Ts × ℚ)) :
    ∀ (st : Option Ts) (acc : List (Ts × Ts)) (b : Ts),
      (∀ t ∈ l.map Prod.fst, b < t) →
      List.Chain' (· < ·) (l.map Prod.fst) →
      List.Pairwise (fun I J : Ts × Ts => I.2 < J.1) acc →
      (∀ I ∈ acc, I.1 < I.2) →
      (∀ I ∈ acc, I.2 ≤ b) →
      (∀ s0 : Ts, st = some s0 → (∀ I ∈ acc, I.2 < s0) ∧ s0 ≤ b) →
      List.Pairwise (fun I J : Ts × Ts => I.2 < J.1) (invLoop l st acc).1
      ∧ (∀ I ∈ (invLoop l st acc).1, I.1 < I.2)
      ∧ (∀ s0 : Ts, (invLoop l st acc).2 = some s0 →
          (∀ I ∈ (invLoop l st acc).1, I.2 < s0)
          ∧ (match l.getLast? with
             | some lp => s0 ≤ lp.1
             | none => s0 ≤ b)) := by
  induction l with
  | nil =>
    intro st acc b _ _ hpw hstrict _ hst
    refine ⟨hpw, hstrict, ?_⟩
    intro s0 hs0
    obtain ⟨h1, h2⟩ := hst s0 hs0
    exact ⟨h1, h2⟩
  | cons hd tl ih =>
    intro st acc b hb hch hpw hstrict hub hst
    obtain ⟨d, v⟩ := hd
    have hbd : b < d := hb d (by simp)
    have hpair : List.Pairwise (· < ·) (d :: tl.map Prod.fst) := by
      have := List.chain'_iff_pairwise.mp hch
      simpa using this
    have hdt : ∀ t ∈ tl.map Prod.fst, d < t := (List.pairwise_cons.mp hpair).1
    have hch' : List.Chain' (· < ·) (tl.map Prod.fst) := by
      have h0 := hch
      rw [List.map_cons] at h0
      exact h0.tail
    cases st with
    | none =>
      have hunf : invLoop ((d, v) :: tl) none acc
          = if v < 0 then invLoop tl (some d) acc else invLoop tl none acc := rfl
      by_cases hv : v < 0
      · rw [hunf, if_pos hv]
        have key := ih (some d) acc d hdt hch' hpw hstrict
          (fun I hI => le_of_lt (lt_of_le_of_lt (hub I hI) hbd))
          (by
            intro s0 hs0
            obtain rfl : d = s0 := Option.some.inj hs0
            exact ⟨fun I hI => lt_of_le_of_lt (hub I hI) hbd, le_refl d⟩)
        refine ⟨key.1, key.2.1, ?_⟩
        intro s0 hs0
        obtain ⟨h1, h2⟩ := key.2.2 s0 hs0
        exact ⟨h1, invariant_last_transfer d v tl b s0 h2⟩
      · rw [hunf, if_neg hv]
        have key := ih none acc d hdt hch' hpw hstrict
          (fun I hI => le_of_lt (lt_of_le_of_lt (hub I hI) hbd))
          (by intro s0 hs0; exact absurd hs0 (by simp))
        refine ⟨key.1, key.2.1, ?_⟩
        intro s0 hs0
        obtain ⟨h1, h2⟩ := key.2.2 s0 hs0
        exact ⟨h1, invariant_last_transfer d v tl b s0 h2⟩
    | some s =>
      have hsacc : (∀ I ∈ acc, I.2 < s) ∧ s ≤ b := hst s rfl
      have hunf : invLoop ((d, v) :: tl) (some s) acc
          = if v < 0 then invLoop tl (some s) acc
            else invLoop tl none (acc ++ [(s, d)]) := rfl
      by_cases hv : v < 0
      · rw [hunf, if_pos hv]
        have key := ih (some s) acc d hdt hch' hpw hstrict
          (fun I hI => le_of_lt (lt_of_le_of_lt (hub I hI) hbd))
          (by
            intro s0 hs0
            obtain rfl : s = s0 := Option.some.inj hs0
            exact ⟨hsacc.1, le_of_lt (lt_of_le_of_lt hsacc.2 hbd)⟩)
        refine ⟨key.1, key.2.1, ?_⟩
        intro s0 hs0
        obtain ⟨h1, h2⟩ := key.2.2 s0 hs0
        exact ⟨h1, invariant_last_transfer d v tl b s0 h2⟩
      · rw [hunf, if_neg hv]
        have hsd : s < d := lt_of_le_of_lt hsacc.2 hbd
        have hpw' : List.Pairwise (fun I J : Ts × Ts => I.2 < J.1) (acc ++ [(s, d)]) := by
          rw [List.pairwise_append]
          refine ⟨hpw, by simp, ?_⟩
          intro I hI J hJ
          rcases List.mem_singleton.mp hJ with rfl
          exact hsacc.1 I hI
        have hstrict' : ∀ I ∈ acc ++ [(s, d)], I.1 < I.2 := by
          intro I hI
          rcases List.mem_append.mp hI with h1 | h2
          · exact hstrict I h1
          · rcases List.mem_singleton.mp h2 with rfl
            exact hsd
        have hub' : ∀ I ∈ acc ++ [(s, d)], I.2 ≤ d := by
          intro I hI
          rcases List.mem_append.mp hI with h1 | h2
          · exact le_of_lt (lt_of_le_of_lt (hub I h1) hbd)
          · rcases List.mem_singleton.mp h2 with rfl
            exact le_refl d
        have key := ih none (acc ++ [(s, d)]) d hdt hch' hpw' hstrict' hub'
          (by intro s0 hs0; exact absurd hs0 (by simp))
        refine ⟨key.1, key.2.1, ?_⟩
        intro s0 hs0
        obtain ⟨h1, h2⟩ := key.2.2 s0 hs0
        exact ⟨h1, invariant_last_transfer d v tl b s0 h2⟩

theorem invLoop_isSome_stillInverted (s : List (Ts × ℚ)) :
    (invLoop s none []).2.isSome = stillInverted s := by
  cases s with
  | nil => rfl
  | cons hd tl =>
    have hne : (hd :: tl : List (Ts × ℚ)) ≠ [] := by simp
    obtain ⟨lp, hlp⟩ := Option.isSome_iff_exists.mp (List.getLast?_isSome.mpr hne)
    rw [invLoop_state_isSome (hd :: tl) none [] lp hlp]
    unfold stillInverted
    rw [hlp]

/-! ## Claim C1: the standard-deviation convention -/

/-- Claim C1 (counterexample): the claim says the reported standard
deviation over a non-empty spread series equals the population value
(divide by N).  The code (`.std()`, line 457) uses the pandas default
`ddof=1`.  On the series `[0, 2]` the code's squared deviation is `2`
while the population formula gives `1`, so the claim fails there
(comparing squares, since the square root is injective on nonnegative
values). -/
theorem c1_population_std_refuted :
    sampleVariance [0, 2] ≠ some (popVarianceSpec [0, 2]) := by
  have h1 : sampleVariance [0, 2] = some 2 := by
    norm_num [sampleVariance, sumSqDev, seriesMean]
  have h2 : popVarianceSpec [0, 2] = 1 := by
    norm_num [popVarianceSpec, sumSqDev, seriesMean]
  rw [h1, h2]
  intro h
  have h3 := Option.some.inj h
  norm_num at h3

/-- Claim C1 (amended): for a spread series of at least two observations
the reported standard deviation is the square root of the sum of squared
deviations divided by `N - 1` (the sample convention), which differs from
the population convention by the factor `N / (N - 1)`: the code's squared
value times `N - 1` and the population variance times `N` both give the
sum of squared deviations.  With fewer than two observations pandas
reports NaN. -/
theorem c1_std_divides_by_n_minus_one (xs : List ℚ) (h : 2 ≤ xs.length) :
    ∃ v, sampleVariance xs = some v
      ∧ v * ((xs.length : ℚ) - 1) = sumSqDev xs
      ∧ popVarianceSpec xs * (xs.length : ℚ) = sumSqDev xs := by
  have hl : (2 : ℚ) ≤ (xs.length : ℚ) := by exact_mod_cast h
  have h1 : ((xs.length : ℚ) - 1) ≠ 0 := by linarith
  have h0 : (xs.length : ℚ) ≠ 0 := by linarith
  refine ⟨sumSqDev xs / ((xs.length : ℚ) - 1), ?_, ?_, ?_⟩
  · unfold sampleVariance
    rw [if_pos h]
  · exact div_mul_cancel₀ _ h1
  · unfold popVarianceSpec
    exact div_mul_cancel₀ _ h0

/-- Witness for the amended C1 at the series `[0, 2]`. -/
theorem c1_std_divides_witness :
    ∃ v, sampleVariance [0, 2] = some v
      ∧ v * ((([0, 2] : List ℚ).length : ℚ) - 1) = sumSqDev [0, 2]
      ∧ popVarianceSpec [0, 2] * ((([0, 2] : List ℚ).length : ℚ)) = sumSqDev [0, 2] :=
  c1_std_divides_by_n_minus_one [0, 2] (by decide)

/-! ## Claim C2: the 2Y interpolation rule -/

/-- Claim C2 (counterexample): the claim says the presence of the proxy
and 5Y columns alone suffices for the interpolation rule, giving `3.7`
from proxy `3.0` and five-year `4.0`.  In the code (line 156) the rule
also requires a `10Y` column: on a table with only the proxy and 5Y
columns the estimate is the raw proxy value `3.0`, not
`3 + 0.7 * (4 - 3)`. -/
theorem c2_proxy_and_5y_not_sufficient :
    hasCol tblProxy5Y "2Y" = true ∧ hasCol tblProxy5Y "5Y" = true
    ∧ (getCol (estimate2Y tblProxy5Y) "2Y_estimated").get? 0 = some (some 3)
    ∧ (3 : ℚ) + estWeight * ((4 : ℚ) - 3) ≠ 3 := by
  refine ⟨rfl, rfl, by decide, by norm_num [estWeight]⟩

/-- Claim C2 (amended): when the proxy, 5Y and 10Y columns are all
present, the estimated 2Y cell at every timestamp where the proxy and 5Y
cells are defined is `proxy + 0.7 * (fiveYear - proxy)`. -/
theorem c2_interp_needs_10y (df : DataFrame)
    (h2 : hasCol df "2Y" = true) (h5 : hasCol df "5Y" = true) (h10 : hasCol df "10Y" = true)
    (i : ℕ) (p f : ℚ)
    (hp : (getCol df "2Y").get? i = some (some p))
    (hf : (getCol df "5Y").get? i = some (some f)) :
    (getCol (estimate2Y df) "2Y_estimated").get? i
      = some (some (p + estWeight * (f - p))) := by
  unfold estimate2Y
  rw [if_pos h2, if_pos (by rw [h5, h10]; rfl)]
  rw [getCol_setCol_self]
  rw [get?_zipWith]
  rw [hp, hf]
  rfl

/-- Witness for the amended C2: the spec's scenario, with a 10Y column
present, yields `3 + 0.7 * (4 - 3) = 3.7`. -/
theorem c2_interp_needs_10y_witness :
    (getCol (estimate2Y tblProxy5Y10Y) "2Y_estimated").get? 0
      = some (some ((3 : ℚ) + estWeight * ((4 : ℚ) - 3)))
    ∧ (3 : ℚ) + estWeight * ((4 : ℚ) - 3) = 37 / 10 :=
  ⟨c2_interp_needs_10y tblProxy5Y10Y rfl rfl rfl 0 3 4 rfl rfl,
   by norm_num [estWeight]⟩

/-! ## Claim C3: fewer than two usable series -/

/-- Claim C3 (counterexample): with a single usable series the code does
not fail with a typed `InsufficientSeriesError`; it takes the
`create_sample_data()` fallback (line 202). -/
theorem c3_single_series_no_typed_error :
    processFetched [("10Y", [((1 : Ts), (4 : ℚ))])] = FetchResult.sampleData
    ∧ FetchResult.sampleData ≠ FetchResult.insufficientSeriesError :=
  ⟨rfl, by decide⟩

/-- Claim C3 (amended): whenever fewer than two usable (nonempty) series
are available, the pipeline falls back to the synthetic sample data — an
aligned table built from other data — instead of surfacing a typed
error. -/
theorem c3_falls_back_to_sample_data (fetched : List (String × List (Ts × ℚ)))
    (h : (fetched.filter (fun s => !s.2.isEmpty)).length < 2) :
    processFetched fetched = FetchResult.sampleData := by
  simp only [processFetched]
  rw [if_neg (by omega)]

/-- Witness for the amended C3 at the empty fetch result. -/
theorem c3_falls_back_witness :
    processFetched ([] : List (String × List (Ts × ℚ))) = FetchResult.sampleData :=
  c3_falls_back_to_sample_data [] (by decide)

/-! ## Claim C7: failures on an empty spread series -/

/-- Claim C7 (counterexample): neither the summary-statistics block nor
the current-status read fails with a typed `EmptySeriesError` on the
empty series; both raise the untyped builtin `IndexError` from
`.iloc[-1]`. -/
theorem c7_not_empty_series_error :
    ¬ (spreadReport [] = Except.error PyError.emptySeriesError
       ∧ currentStatus [] = Except.error PyError.emptySeriesError) := by
  intro h
  have h1 : (Except.error PyError.indexError : Except PyError SpreadStats)
      = Except.error PyError.emptySeriesError := h.1
  simp at h1

/-- Claim C7 (amended): on the empty spread series both the
summary-statistics block (line 446) and the current-status read
(line 412) fail with the same untyped builtin `IndexError` raised by
`.iloc[-1]` — not with a typed `EmptySeriesError`. -/
theorem c7_both_index_error :
    spreadReport ([] : List ℚ) = Except.error PyError.indexError
    ∧ currentStatus ([] : List (Ts × ℚ)) = Except.error PyError.indexError :=
  ⟨rfl, rfl⟩

/-! ## Claim C9: estimator with no usable maturity data -/

/-- Claim C9 (counterexample): on a table with neither the proxy nor the
5Y column, the estimator step raises nothing and silently leaves the
table unchanged — no `2Y_estimated` column and no `NoMaturityDataError`
(lines 153-172 simply fall through). -/
theorem c9_no_data_no_error :
    estimate2Y tblLongOnly = tblLongOnly
    ∧ hasCol (estimate2Y tblLongOnly) "2Y_estimated" = false :=
  ⟨rfl, rfl⟩

/-- Claim C9 (amended): when neither the proxy (`2Y`) nor the `5Y`
column is present, the estimator returns the table unchanged: no
estimate column is added and no error is raised. -/
theorem c9_estimator_silent_passthrough (df : DataFrame)
    (h2 : hasCol df "2Y" = false) (h5 : hasCol df "5Y" = false) :
    estimate2Y df = df := by
  unfold estimate2Y
  rw [if_neg (by simp [h2]), if_neg (by simp [h5])]

/-- Witness for the amended C9 at a one-column table. -/
theorem c9_estimator_silent_witness :
    estimate2Y ⟨[1], [("10Y", [some 4])]⟩ = ⟨[1], [("10Y", [some 4])]⟩ :=
  c9_estimator_silent_passthrough _ rfl rfl

/-! ## Claim C4: the detector on uniform series -/

/-- Claim C4 (counterexample): the emitted intervals carry no still-active
marking.  The all-negative series `[(1,-1),(2,-1)]` (still inverted at its
last observation) and the series `[(1,-1),(2,0)]` (whose inversion closes
exactly at the last observation) produce the identical output `[(1,2)]`,
so a caller cannot distinguish the open interval from the closed one. -/
theorem c4_no_still_active_marker :
    analyze_inversions [((1 : Ts), (-1 : ℚ)), (2, -1)]
      = analyze_inversions [((1 : Ts), (-1 : ℚ)), (2, 0)]
    ∧ stillInverted [((1 : Ts), (-1 : ℚ)), (2, -1)] = true
    ∧ stillInverted [((1 : Ts), (-1 : ℚ)), (2, 0)] = false := by
  refine ⟨by decide, by decide, by decide⟩

/-- Claim C4 (amended): on an all-non-negative series the detector yields
the empty interval list; on a non-empty all-negative series it yields
exactly one interval from the first to the last timestamp — but that
interval is a bare pair, not marked still-active. -/
theorem c4_detector_on_uniform_series (s : List (Ts × ℚ)) :
    ((∀ p ∈ s, 0 ≤ p.2) → analyze_inversions s = [])
    ∧ (∀ d v rest lp, s = (d, v) :: rest → s.getLast? = some lp →
        (∀ p ∈ s, p.2 < 0) → analyze_inversions s = [(d, lp.1)]) := by
  constructor
  · intro h
    unfold analyze_inversions
    rw [invLoop_of_nonneg s [] h]
  · intro d v rest lp hs hlp hneg
    subst hs
    unfold analyze_inversions
    have hv : v < 0 := hneg (d, v) (by simp)
    have hstep : invLoop ((d, v) :: rest) none [] = invLoop rest (some d) [] := by
      show (if v < 0 then invLoop rest (some d) [] else invLoop rest none []) = _
      rw [if_pos hv]
    rw [hstep, invLoop_of_allneg rest d [] (fun p hp => hneg p (by simp [hp]))]
    rw [hlp]
    rfl

/-- Witness for the amended C4: a positive singleton yields no interval;
an all-negative two-point series yields the single spanning interval. -/
theorem c4_detector_uniform_witness :
    analyze_inversions [((1 : Ts), (1 : ℚ))] = []
    ∧ analyze_inversions [((1 : Ts), (-2 : ℚ)), (2, -1)] = [(1, 2)] :=
  ⟨(c4_detector_on_uniform_series _).1 (by decide),
   (c4_detector_on_uniform_series _).2 1 (-2) [(2, -1)] (2, -1) rfl rfl (by decide)⟩

/-! ## Claim C5: spread values -/

/-- Claim C5 (confirmed): for each of the two spread pairs the code
computes, whenever both operand columns are present the output spread
cell at every row position is the difference of the operand values when
both are defined, and is unset when either operand cell is unset or the
row is absent. -/
theorem c5_spread_pointwise (df : DataFrame) (i : ℕ) :
    (hasCol df "10Y" = true → hasCol df "2Y_estimated" = true →
      (getCol (calculate_spreads df) "2s10s_spread").get? i =
        (match (getCol df "10Y").get? i, (getCol df "2Y_estimated").get? i with
          | some (some a), some (some b) => some (some (a - b))
          | some _, some _ => some none
          | _, _ => none))
    ∧ (hasCol df "30Y" = true → hasCol df "5Y" = true →
      (getCol (calculate_spreads df) "5s30s_spread").get? i =
        (match (getCol df "30Y").get? i, (getCol df "5Y").get? i with
          | some (some a), some (some b) => some (some (a - b))
          | some _, some _ => some none
          | _, _ => none)) := by
  have hzip : ∀ (l1 l2 : List Cell) (j : ℕ),
      (List.zipWith cellSub l1 l2).get? j =
        (match l1.get? j, l2.get? j with
          | some (some a), some (some b) => some (some (a - b))
          | some _, some _ => some none
          | _, _ => none) := by
    intro l1 l2 j
    rw [get?_zipWith]
    cases h1 : l1.get? j with
    | none => rfl
    | some c1 =>
      cases h2 : l2.get? j with
      | none => cases c1 <;> rfl
      | some c2 => cases c1 <;> cases c2 <;> rfl
  constructor
  · intro h10 h2e
    have hcond : (hasCol df "10Y" && hasCol df "2Y_estimated") = true := by
      rw [h10, h2e]; rfl
    simp only [calculate_spreads]
    rw [if_pos hcond]
    set z1 := List.zipWith cellSub (getCol df "10Y") (getCol df "2Y_estimated") with hz1
    by_cases hB : (hasCol (setCol df "2s10s_spread" z1) "30Y"
        && hasCol (setCol df "2s10s_spread" z1) "5Y") = true
    · rw [if_pos hB, getCol_setCol_ne _ _ _ _ (by decide), getCol_setCol_self, hz1]
      exact hzip _ _ i
    · rw [if_neg hB, getCol_setCol_self, hz1]
      exact hzip _ _ i
  · intro h30 h5
    simp only [calculate_spreads]
    by_cases hA : (hasCol df "10Y" && hasCol df "2Y_estimated") = true
    · rw [if_pos hA]
      set z1 := List.zipWith cellSub (getCol df "10Y") (getCol df "2Y_estimated") with hz1
      have h30' : hasCol (setCol df "2s10s_spread" z1) "30Y" = true := by
        rw [hasCol_setCol_ne _ _ _ _ (by decide)]
        exact h30
      have h5' : hasCol (setCol df "2s10s_spread" z1) "5Y" = true := by
        rw [hasCol_setCol_ne _ _ _ _ (by decide)]
        exact h5
      have hcond2 : (hasCol (setCol df "2s10s_spread" z1) "30Y"
          && hasCol (setCol df "2s10s_spread" z1) "5Y") = true := by
        rw [h30', h5']; rfl
      rw [if_pos hcond2, getCol_setCol_self,
          getCol_setCol_ne _ _ _ _ (by decide), getCol_setCol_ne _ _ _ _ (by decide)]
      exact hzip _ _ i
    · rw [if_neg hA]
      have hcond2 : (hasCol df "30Y" && hasCol df "5Y") = true := by
        rw [h30, h5]; rfl
      rw [if_pos hcond2, getCol_setCol_self]
      exact hzip _ _ i

/-- Witness for C5 on a concrete four-column table, including a row where
the 10Y cell is NaN. -/
theorem c5_spread_pointwise_witness :
    (getCol (calculate_spreads tblFour) "2s10s_spread").get? 0 = some (some ((5 : ℚ) - 3))
    ∧ (getCol (calculate_spreads tblFour) "2s10s_spread").get? 1 = some none
    ∧ (getCol (calculate_spreads tblFour) "5s30s_spread").get? 0 = some (some ((6 : ℚ) - 4)) := by
  refine ⟨?_, ?_, ?_⟩
  · have h := (c5_spread_pointwise tblFour 0).1 rfl rfl
    rw [h]
    rfl
  · have h := (c5_spread_pointwise tblFour 1).1 rfl rfl
    rw [h]
    rfl
  · have h := (c5_spread_pointwise tblFour 0).2 rfl rfl
    rw [h]
    rfl

/-! ## Claim C6: the spread computation and the input table -/

/-- Claim C6 (counterexample): `calculate_spreads` writes the spread
column into `self.data` rather than returning a separate value: the
analyzer's table after the call differs from the table before it, and now
carries the `2s10s_spread` column. -/
theorem c6_spread_written_into_table :
    calculate_spreads tblTenTwo ≠ tblTenTwo
    ∧ hasCol (calculate_spreads tblTenTwo) "2s10s_spread" = true :=
  ⟨by decide, by decide⟩

/-- Claim C6 (amended): the spread computation leaves the pre-existing
columns and the row index unchanged — but it appends the spread columns
to the same table (in-place mutation of `self.data`) instead of
returning them separately. -/
theorem c6_existing_columns_preserved (df : DataFrame) (name : String)
    (h1 : name ≠ "2s10s_spread") (h2 : name ≠ "5s30s_spread") :
    (calculate_spreads df).index = df.index
    ∧ getCol (calculate_spreads df) name = getCol df name
    ∧ hasCol (calculate_spreads df) name = hasCol df name := by
  simp only [calculate_spreads]
  set z1 := List.zipWith cellSub (getCol df "10Y") (getCol df "2Y_estimated") with hz1
  by_cases hA : (hasCol df "10Y" && hasCol df "2Y_estimated") = true
  · rw [if_pos hA]
    have e1 : (setCol df "2s10s_spread" z1).index = df.index := index_setCol df _ _
    have e2 : getCol (setCol df "2s10s_spread" z1) name = getCol df name :=
      getCol_setCol_ne df _ name z1 h1
    have e3 : hasCol (setCol df "2s10s_spread" z1) name = hasCol df name :=
      hasCol_setCol_ne df _ name z1 h1
    by_cases hB : (hasCol (setCol df "2s10s_spread" z1) "30Y"
        && hasCol (setCol df "2s10s_spread" z1) "5Y") = true
    · rw [if_pos hB]
      refine ⟨?_, ?_, ?_⟩
      · rw [index_setCol, e1]
      · rw [getCol_setCol_ne _ _ name _ h2, e2]
      · rw [hasCol_setCol_ne _ _ name _ h2, e3]
    · rw [if_neg hB]
      exact ⟨e1, e2, e3⟩
  · rw [if_neg hA]
    by_cases hB : (hasCol df "30Y" && hasCol df "5Y") = true
    · rw [if_pos hB]
      exact ⟨index_setCol df _ _, getCol_setCol_ne df _ name _ h2,
        hasCol_setCol_ne df _ name _ h2⟩
    · rw [if_neg hB]
      exact ⟨rfl, rfl, rfl⟩

/-- Witness for the amended C6: the pre-existing `10Y` column of a
concrete table is untouched by the spread computation. -/
theorem c6_existing_columns_witness :
    (calculate_spreads ⟨[0], [("10Y", [some 4])]⟩).index
      = (⟨[0], [("10Y", [some 4])]⟩ : DataFrame).index
    ∧ getCol (calculate_spreads ⟨[0], [("10Y", [some 4])]⟩) "10Y"
        = getCol ⟨[0], [("10Y", [some 4])]⟩ "10Y"
    ∧ hasCol (calculate_spreads ⟨[0], [("10Y", [some 4])]⟩) "10Y"
        = hasCol ⟨[0], [("10Y", [some 4])]⟩ "10Y" :=
  c6_existing_columns_preserved _ "10Y" (by decide) (by decide)

/-! ## Claim C8: fill totality and row dropping -/

/-- Claim C8 (confirmed): in the cleaned table (dropna + forward fill +
backward fill), every column that holds at least one known value has no
unset cell left, and — provided the table has at least one column — no
surviving row is unset in every column. -/
theorem c8_fill_totality (df : DataFrame) (hwf : df.WF) :
    (∀ c ∈ (cleanTable df).cols, (∃ x ∈ c.2, x.isSome = true) → ∀ x ∈ c.2, x.isSome = true)
    ∧ (df.cols ≠ [] → ∀ i, i < (cleanTable df).index.length →
        ∃ c ∈ (cleanTable df).cols, ∃ v : ℚ, c.2.get? i = some (some v)) := by
  have hcols : (cleanTable df).cols
      = df.cols.map (fun c => (c.1, bfillCol (ffillCol
          (((List.range df.index.length).filter
            (fun i => !(rowAllNaN df.cols i))).filterMap (fun i => c.2.get? i))))) := by
    simp only [cleanTable, dropAllNaN, List.map_map]
    rfl
  have hidx : (cleanTable df).index
      = ((List.range df.index.length).filter
          (fun i => !(rowAllNaN df.cols i))).filterMap (fun i => df.index.get? i) := by
    simp only [cleanTable, dropAllNaN]
  set keep := (List.range df.index.length).filter (fun i => !(rowAllNaN df.cols i)) with hkeep
  have hkeepbound : ∀ j ∈ keep, j < df.index.length := by
    intro j hj
    rw [hkeep] at hj
    exact List.mem_range.mp (List.mem_filter.mp hj).1
  constructor
  · intro c hc hex x hx
    rw [hcols] at hc
    obtain ⟨c0, hc0, hceq⟩ := List.mem_map.mp hc
    have hc2 : c.2 = bfillCol (ffillCol (keep.filterMap (fun i => c0.2.get? i))) := by
      rw [← hceq]
    rw [hc2] at hx hex
    by_cases hs : ∃ y ∈ keep.filterMap (fun i => c0.2.get? i), y.isSome = true
    · exact fill_total _ hs x hx
    · have hall : ∀ y ∈ keep.filterMap (fun i => c0.2.get? i), y = none := by
        intro y hy
        rcases y with _ | z
        · rfl
        · exact absurd ⟨some z, hy, rfl⟩ hs
      rw [fill_all_none _ hall] at hex
      obtain ⟨y, hy, hys⟩ := hex
      rw [hall y hy] at hys
      simp at hys
  · intro _ i hi
    rw [hidx] at hi
    have hlen : (keep.filterMap (fun i => df.index.get? i)).length = keep.length :=
      length_filterMap_get? df.index keep hkeepbound
    rw [hlen] at hi
    obtain ⟨j, hj⟩ : ∃ j, keep.get? i = some j := by
      rw [List.get?_eq_get hi]
      exact ⟨keep.get ⟨i, hi⟩, rfl⟩
    have hjmem : j ∈ keep := List.get?_mem hj
    have hjlt : j < df.index.length := hkeepbound j hjmem
    have hrow : rowAllNaN df.cols j = false := by
      rw [hkeep] at hjmem
      have hfil := (List.mem_filter.mp hjmem).2
      simpa using hfil
    have hrow' : df.cols.all (fun c => (cellAt c.2 j).isNone) = false := hrow
    obtain ⟨c0, hc0, hnv⟩ := List.all_eq_false.mp hrow'
    obtain ⟨v, hv⟩ : ∃ v : ℚ, c0.2.get? j = some (some v) := by
      cases hg : c0.2.get? j with
      | none =>
        exfalso
        apply hnv
        unfold cellAt
        rw [hg]
        rfl
      | some cell =>
        cases cell with
        | none =>
          exfalso
          apply hnv
          unfold cellAt
          rw [hg]
          rfl
        | some v => exact ⟨v, rfl⟩
    refine ⟨(c0.1, bfillCol (ffillCol (keep.filterMap (fun i => c0.2.get? i)))), ?_, ?_⟩
    · rw [hcols]
      exact List.mem_map.mpr ⟨c0, hc0, rfl⟩
    · have hmem : some v ∈ keep.filterMap (fun i => c0.2.get? i) :=
        List.mem_filterMap.mpr ⟨j, hjmem, hv⟩
      have htotal := fill_total (keep.filterMap (fun i => c0.2.get? i)) ⟨some v, hmem, rfl⟩
      have hclen : (bfillCol (ffillCol (keep.filterMap (fun i => c0.2.get? i)))).length
          = keep.length := by
        rw [bfillCol_length]
        unfold ffillCol
        rw [ffillFrom_length]
        exact length_filterMap_get? c0.2 keep (fun a ha => by
          rw [hwf c0 hc0]
          exact hkeepbound a ha)
      have hilt : i < (bfillCol (ffillCol (keep.filterMap (fun i => c0.2.get? i)))).length := by
        rw [hclen]
        exact hi
      obtain ⟨x, hx⟩ : ∃ x, (bfillCol (ffillCol
          (keep.filterMap (fun i => c0.2.get? i)))).get? i = some x := by
        rw [List.get?_eq_get hilt]
        exact ⟨_, rfl⟩
      have hxs : x.isSome = true := htotal x (List.get?_mem hx)
      obtain ⟨v', hv'⟩ := Option.isSome_iff_exists.mp hxs
      refine ⟨v', ?_⟩
      show (bfillCol (ffillCol (keep.filterMap (fun i => c0.2.get? i)))).get? i
        = some (some v')
      rw [hx, hv']

/-- Witness for C8 at a concrete gappy table: after cleaning, row 0 has a
defined cell in some column. -/
theorem c8_fill_totality_witness :
    ∃ c ∈ (cleanTable tblFill).cols, ∃ v : ℚ, c.2.get? 0 = some (some v) :=
  (c8_fill_totality tblFill (by decide)).2 (by decide) 0 (by decide)

/-! ## Claim C10: well-formedness of the interval list -/

/-- Claim C10 (confirmed): for a spread series with strictly ascending
timestamps, the interval list is well formed: starts strictly ascend,
consecutive intervals are separated (each interval ends strictly before
the next begins, so they are pairwise disjoint), every interval satisfies
`start ≤ end`, every closed interval satisfies `start < end` (when the
series does not end inverted, all emitted intervals are closed), and when
the series ends inverted the final interval is the open one, ending at
the series' last timestamp with its start at or before that timestamp,
while all earlier intervals are closed. -/
theorem c10_intervals_wellformed (s : List (Ts × ℚ))
    (hasc : List.Chain' (· < ·) (s.map Prod.fst)) :
    List.Pairwise (fun I J : Ts × Ts => I.1 < J.1) (analyze_inversions s)
    ∧ List.Pairwise (fun I J : Ts × Ts => I.2 < J.1) (analyze_inversions s)
    ∧ (∀ I ∈ analyze_inversions s, I.1 ≤ I.2)
    ∧ (stillInverted s = false → ∀ I ∈ analyze_inversions s, I.1 < I.2)
    ∧ (stillInverted s = true →
        (∀ I ∈ (analyze_inversions s).dropLast, I.1 < I.2)
        ∧ ∃ s0 lp, s.getLast? = some lp
            ∧ (analyze_inversions s).getLast? = some (s0, lp.1) ∧ s0 ≤ lp.1) := by
  cases s with
  | nil =>
    refine ⟨?_, ?_, ?_, ?_, ?_⟩ <;> simp [analyze_inversions, invLoop, stillInverted]
  | cons hd tl =>
    obtain ⟨d0, v0⟩ := hd
    have hb : ∀ t ∈ ((d0, v0) :: tl).map Prod.fst, d0 - 1 < t := by
      intro t ht
      simp at ht
      rcases ht with rfl | ht2
      · exact sub_one_lt t
      · obtain ⟨x, hx⟩ := ht2
        have hmem : t ∈ tl.map Prod.fst := List.mem_map.mpr ⟨(t, x), hx, rfl⟩
        have hpair : List.Pairwise (· < ·) (d0 :: tl.map Prod.fst) := by
          have hcp := List.chain'_iff_pairwise.mp hasc
          simpa using hcp
        have hdt : d0 < t := (List.pairwise_cons.mp hpair).1 t hmem
        exact lt_trans (sub_one_lt d0) hdt
    have key := invLoop_invariant ((d0, v0) :: tl) none [] (d0 - 1) hb hasc
      List.Pairwise.nil (by simp) (by simp) (by simp)
    obtain ⟨hpw, hstrict, hopen⟩ := key
    rcases hloop : invLoop ((d0, v0) :: tl) none [] with ⟨acc, st⟩
    rw [hloop] at hpw hstrict hopen
    have hSI : st.isSome = stillInverted ((d0, v0) :: tl) := by
      have h0 := invLoop_isSome_stillInverted ((d0, v0) :: tl)
      rw [hloop] at h0
      exact h0
    obtain ⟨lp, hlp⟩ : ∃ lp, ((d0, v0) :: tl).getLast? = some lp := by
      have hne : ((d0, v0) :: tl : List (Ts × ℚ)) ≠ [] := by simp
      exact Option.isSome_iff_exists.mp (List.getLast?_isSome.mpr hne)
    cases st with
    | none =>
      have hr : analyze_inversions ((d0, v0) :: tl) = acc := by
        unfold analyze_inversions
        rw [hloop, hlp]
      rw [hr]
      have hstrict' : ∀ I ∈ acc, I.1 < I.2 := hstrict
      refine ⟨?_, hpw, ?_, ?_, ?_⟩
      · exact List.Pairwise.imp_of_mem
          (fun {a b} ha _ hab => lt_trans (hstrict' a ha) hab) hpw
      · intro I hI
        exact le_of_lt (hstrict' I hI)
      · intro _
        exact hstrict'
      · intro hSIt
        rw [hSIt] at hSI
        simp at hSI
    | some s0 =>
      obtain ⟨hend, hmatch⟩ := hopen s0 rfl
      have hle : s0 ≤ lp.1 := by
        rw [hlp] at hmatch
        exact hmatch
      have hr : analyze_inversions ((d0, v0) :: tl) = acc ++ [(s0, lp.1)] := by
        unfold analyze_inversions
        rw [hloop, hlp]
      rw [hr]
      have hle2 : ∀ I ∈ acc ++ [(s0, lp.1)], I.1 ≤ I.2 := by
        intro I hI
        rcases List.mem_append.mp hI with h1 | h2
        · exact le_of_lt (hstrict I h1)
        · rcases List.mem_singleton.mp h2 with rfl
          exact hle
      have hpw2 : List.Pairwise (fun I J : Ts × Ts => I.2 < J.1) (acc ++ [(s0, lp.1)]) := by
        rw [List.pairwise_append]
        refine ⟨hpw, by simp, ?_⟩
        intro I hI J hJ
        rcases List.mem_singleton.mp hJ with rfl
        exact hend I hI
      refine ⟨?_, hpw2, hle2, ?_, ?_⟩
      · exact List.Pairwise.imp_of_mem
          (fun {a b} ha _ hab => lt_of_le_of_lt (hle2 a ha) hab) hpw2
      · intro hSIf
        rw [hSIf] at hSI
        simp at hSI
      · intro _
        constructor
        · rw [List.dropLast_concat]
          exact hstrict
        · exact ⟨s0, lp, hlp, by rw [List.getLast?_concat], hle⟩

/-- Witness for C10 at a concrete ascending series with one closed and
one still-open inversion. -/
theorem c10_intervals_witness :
    List.Pairwise (fun I J : Ts × Ts => I.2 < J.1)
      (analyze_inversions [((1 : Ts), (-1 : ℚ)), (2, 1), (3, -1)]) :=
  (c10_intervals_wellformed _ (by norm_num [List.chain'_cons])).2.1

end YieldCurve
